import Mathlib

/-!
Shallow embedding of the watchinator core (Go) in Lean 4, with theorems
checking the natural-language specification against the code.

Components embedded:
- the GitHubItem data model and label-set view,
- the Matchinator predicate pipeline (match.go),
- the Pollinator scheduler state machine (poll.go),
- the watchinator reconciliation callback and poll callback (watch.go),
- the Actioninator dispatcher built on an errgroup with a derived,
  failure-cancelled context (action.go),
- a Brzozowski-derivative regex matcher modelling the Go regexp
  fragment the watch configuration uses, applied to lowercased text.

External collaborators (the GitHub client, the SMTP client, the k8s
label-selector library, loggers and metric sinks) are modelled at their
interface boundary: a selector is an opaque predicate over the label-set
view plus its source text, the client calls are function parameters, and
metric increments are counted explicitly where a claim mentions them.
-/

namespace Watchinator

/-- Model of the GitHubRepository struct: an owner and a name. -/
structure GitHubRepository where
  owner : String
  name : String
deriving DecidableEq, Repr

/-- Model of the GitHubItem struct, with the embedded GitHubIssue fields
flattened in (author login, body, labels, number, state, title,
subscription) next to the item type, repository and id. -/
structure GitHubItem where
  authorLogin : String
  body : String
  labels : List String
  number : Int
  state : String
  title : String
  subscription : String
  itemType : String
  repo : GitHubRepository
  id : String
deriving DecidableEq, Repr

/-- The githubv4 subscription state the subscribe action checks for. -/
def SubscriptionStateSubscribed : String := "SUBSCRIBED"

/-- Model of GitHubItemAsLabelSet: the flattened string-keyed view of a
GitHubItem used by label selectors; keys are dot-notation field paths. -/
def GitHubItemAsLabelSet (i : GitHubItem) : List (String × String) :=
  [("type", i.itemType),
   ("repo.owner", i.repo.owner),
   ("repo.name", i.repo.name),
   ("author.login", i.authorLogin),
   ("body", i.body),
   ("number", toString i.number),
   ("title", i.title),
   ("state", i.state),
   ("subscription", i.subscription)]

/-- A k8s label selector, modelled at the library boundary: an opaque
predicate over the label-set view together with its source text
(the String method of the selector). -/
structure Selector where
  selMatches : List (String × String) → Bool
  str : String

/-- ASCII uppercase test on a character (the range A to Z). -/
def isUpperAscii (c : Char) : Bool :=
  65 ≤ c.toNat && c.toNat ≤ 90

/-- ASCII lowercasing of one character, modelling what strings.ToLower
does on the ASCII range: A..Z map to a..z, all else is unchanged. -/
def lowerChar (c : Char) : Char :=
  if h : 65 ≤ c.toNat ∧ c.toNat ≤ 90 then
    ⟨UInt32.ofNat (c.toNat + 32), by
      show Nat.isValidChar ((UInt32.ofNat (c.toNat + 32)).toNat)
      have he : (UInt32.ofNat (c.toNat + 32)).toNat = (c.toNat + 32) % 4294967296 := rfl
      rw [he, Nat.mod_eq_of_lt (by omega)]
      exact Or.inl (by omega)⟩
  else c

/-- Model of strings.ToLower on the ASCII fragment. -/
def goToLower (s : String) : String :=
  String.mk (s.data.map lowerChar)

/-- Abstract syntax of the regexp fragment used by watch patterns:
the empty language, the empty word, a literal character, any character,
alternation, concatenation and iteration. -/
inductive Regex where
  | emptyset : Regex
  | eps : Regex
  | char : Char → Regex
  | dot : Regex
  | alt : Regex → Regex → Regex
  | cat : Regex → Regex → Regex
  | star : Regex → Regex
deriving DecidableEq, Repr

/-- Does the regex accept the empty word. -/
def Regex.nullable : Regex → Bool
  | .emptyset => false
  | .eps => true
  | .char _ => false
  | .dot => false
  | .alt r s => r.nullable || s.nullable
  | .cat r s => r.nullable && s.nullable
  | .star _ => true

/-- Brzozowski derivative of a regex by one character. -/
def Regex.deriv (a : Char) : Regex → Regex
  | .emptyset => .emptyset
  | .eps => .emptyset
  | .char c => if a = c then .eps else .emptyset
  | .dot => .eps
  | .alt r s => .alt (r.deriv a) (s.deriv a)
  | .cat r s =>
      if r.nullable then .alt (.cat (r.deriv a) s) (s.deriv a)
      else .cat (r.deriv a) s
  | .star r => .cat (r.deriv a) (.star r)

/-- Does the regex match the whole character list. -/
def Regex.matchFull (r : Regex) : List Char → Bool
  | [] => r.nullable
  | a :: as => (r.deriv a).matchFull as

/-- Does the regex match some leading segment of the character list. -/
def Regex.matchSomePre (r : Regex) : List Char → Bool
  | [] => r.nullable
  | a :: as => r.nullable || (r.deriv a).matchSomePre as

/-- Unanchored matching, as the Match method of a compiled Go regexp:
does the regex match some contiguous segment of the character list. -/
def Regex.matchIn (r : Regex) : List Char → Bool
  | [] => r.nullable
  | a :: as => r.matchSomePre (a :: as) || r.matchIn as

/-- A literal-string pattern as a regex: the concatenation of its
characters. -/
def litRegex (s : List Char) : Regex :=
  s.foldr (fun a r => Regex.cat (Regex.char a) r) Regex.eps

/-- Does the regex syntax contain an uppercase ASCII literal character. -/
def Regex.hasUpperLit : Regex → Bool
  | .emptyset => false
  | .eps => false
  | .char c => isUpperAscii c
  | .dot => false
  | .alt r s => r.hasUpperLit || s.hasUpperLit
  | .cat r s => r.hasUpperLit || s.hasUpperLit
  | .star r => r.hasUpperLit

/-- A compiled regexp, as the Go regexp.Regexp value a Watch stores:
the matching automaton together with the source pattern text returned
by its String method. -/
structure CompiledRegex where
  ast : Regex
  src : String

/-- Model of the GitHubItemMatcher struct: one named predicate. -/
structure GitHubItemMatcher where
  matcher : GitHubItem → Bool
  name : String

/-- Model of SelectorAsGitHubItemMatcher: matches when the selector
matches the label-set view of the item. -/
def SelectorAsGitHubItemMatcher (s : Selector) : GitHubItemMatcher :=
  { matcher := fun i => s.selMatches (GitHubItemAsLabelSet i)
    name := "selector: \x27" ++ s.str ++ "\x27" }

/-- Model of BodyRegexAsGitHubItemMatcher: matches the regex against the
lowercased body text. -/
def BodyRegexAsGitHubItemMatcher (r : CompiledRegex) : GitHubItemMatcher :=
  { matcher := fun i => r.ast.matchIn (goToLower i.body).data
    name := "bodyRegex: \x27" ++ r.src ++ "\x27" }

/-- Model of TitleRegexAsGitHubItemMatcher: matches the regex against
the lowercased title text. -/
def TitleRegexAsGitHubItemMatcher (r : CompiledRegex) : GitHubItemMatcher :=
  { matcher := fun i => r.ast.matchIn (goToLower i.title).data
    name := "titleRegex: \x27" ++ r.src ++ "\x27" }

/-- Model of RequiredLabelAsGitHubItemMatcher: matches when the required
label is among the item labels. -/
def RequiredLabelAsGitHubItemMatcher (l : String) : GitHubItemMatcher :=
  { matcher := fun i => i.labels.any (fun x => x == l)
    name := "requiredLabel: \x27" ++ l ++ "\x27" }

/-- Model of the matchinator struct: the ordered predicate list and the
two introspection flags set by the builder methods. -/
structure Matchinator where
  matchFuncs : List GitHubItemMatcher
  hasBodyRegex : Bool
  hasRequiredLabels : Bool

/-- Model of NewMatchinator: no predicates, both flags false. -/
def NewMatchinator : Matchinator :=
  { matchFuncs := [], hasBodyRegex := false, hasRequiredLabels := false }

/-- Model of the WithMatchFunc builder method: append one predicate. -/
def Matchinator.withMatchFunc (m : Matchinator) (f : GitHubItemMatcher) : Matchinator :=
  { m with matchFuncs := m.matchFuncs ++ [f] }

/-- Model of the WithSelectors builder method: no-op on an empty
argument list, otherwise append one predicate per selector. -/
def Matchinator.withSelectors (m : Matchinator) (ss : List Selector) : Matchinator :=
  if ss.isEmpty then m
  else { m with matchFuncs := m.matchFuncs ++ ss.map SelectorAsGitHubItemMatcher }

/-- Model of the WithBodyRegexes builder method: no-op on an empty
argument list, otherwise set the body flag and append one predicate per
regex. -/
def Matchinator.withBodyRegexes (m : Matchinator) (rs : List CompiledRegex) : Matchinator :=
  if rs.isEmpty then m
  else { m with hasBodyRegex := true,
                matchFuncs := m.matchFuncs ++ rs.map BodyRegexAsGitHubItemMatcher }

/-- Model of the WithTitleRegexes builder method: no-op on an empty
argument list, otherwise append one predicate per regex; no flag. -/
def Matchinator.withTitleRegexes (m : Matchinator) (rs : List CompiledRegex) : Matchinator :=
  if rs.isEmpty then m
  else { m with matchFuncs := m.matchFuncs ++ rs.map TitleRegexAsGitHubItemMatcher }

/-- Model of the WithRequiredLabels builder method: no-op on an empty
argument list, otherwise set the label flag and append one predicate per
label. -/
def Matchinator.withRequiredLabels (m : Matchinator) (ls : List String) : Matchinator :=
  if ls.isEmpty then m
  else { m with hasRequiredLabels := true,
                matchFuncs := m.matchFuncs ++ ls.map RequiredLabelAsGitHubItemMatcher }

/-- The loop body of the Matches method: scan the predicates in order
and stop at the first failure, reporting its name. -/
def matchesList : List GitHubItemMatcher → GitHubItem → Bool × String
  | [], _ => (true, "")
  | f :: fs, i =>
      if f.matcher i then matchesList fs i
      else (false, "did not match " ++ f.name)

/-- Model of the Matches method of a matchinator. -/
def Matchinator.matches (m : Matchinator) (i : GitHubItem) : Bool × String :=
  matchesList m.matchFuncs i

/-- One builder call on a matchinator, for reasoning about arbitrary
construction sequences. -/
inductive BuildOp where
  | selectors : List Selector → BuildOp
  | bodyRegexes : List CompiledRegex → BuildOp
  | titleRegexes : List CompiledRegex → BuildOp
  | requiredLabels : List String → BuildOp
  | matchFunc : GitHubItemMatcher → BuildOp

/-- Apply one builder call to a matchinator. -/
def applyBuildOp (m : Matchinator) : BuildOp → Matchinator
  | .selectors ss => m.withSelectors ss
  | .bodyRegexes rs => m.withBodyRegexes rs
  | .titleRegexes rs => m.withTitleRegexes rs
  | .requiredLabels ls => m.withRequiredLabels ls
  | .matchFunc f => m.withMatchFunc f

/-- Build a matchinator from NewMatchinator by a sequence of builder
calls. -/
def buildFrom (ops : List BuildOp) : Matchinator :=
  ops.foldl applyBuildOp NewMatchinator

/-- Is this builder call a WithBodyRegexes call with a non-empty
argument list. -/
def BuildOp.isNonemptyBody : BuildOp → Bool
  | .bodyRegexes rs => !rs.isEmpty
  | _ => false

/-- Is this builder call a WithRequiredLabels call with a non-empty
argument list. -/
def BuildOp.isNonemptyLabels : BuildOp → Bool
  | .requiredLabels ls => !ls.isEmpty
  | _ => false

/-- Model of the per-watch enablement of the email action. -/
structure EmailActionConfig where
  enabled : Bool
  sendTo : String

/-- Model of the per-watch enablement of the subscribe action. -/
structure SubscribeActionConfig where
  enabled : Bool

/-- Model of the ActionConfig struct on a Watch. -/
structure ActionConfig where
  subscribe : SubscribeActionConfig
  email : EmailActionConfig

/-- Model of the Watch struct after ValidateAndPopulate: the parsed
selector and regex fields are populated. -/
structure Watch where
  name : String
  repositories : List GitHubRepository
  selectors : List Selector
  requiredLabels : List String
  searchLabels : List String
  bodyRegex : List CompiledRegex
  titleRegex : List CompiledRegex
  states : List String
  actions : ActionConfig

/-- Model of the GetMatchinator method of a Watch: builder calls in the
source order WithBodyRegexes, WithTitleRegexes, WithSelectors,
WithRequiredLabels. -/
def Watch.getMatchinator (w : Watch) : Matchinator :=
  (((NewMatchinator.withBodyRegexes w.bodyRegex).withTitleRegexes
      w.titleRegex).withSelectors w.selectors).withRequiredLabels w.requiredLabels

/-- Model of one poll struct: the identity of the owning watch name, the
callbackOnStart flag, and the state of its cancel and done channels
(true once closed). -/
structure PollRec where
  name : String
  cbOnStart : Bool
  cancelClosed : Bool
  doneClosed : Bool
deriving DecidableEq, Repr

/-- A fresh poll as Add creates it: channels open. -/
def mkPollRec (n : String) (cb : Bool) : PollRec :=
  { name := n, cbOnStart := cb, cancelClosed := false, doneClosed := false }

/-- Model of stopPoll: close the cancel channel, then block until the
done channel is closed; in this sequential model the stopped poll ends
with both channels closed. -/
def stopPollRec (p : PollRec) : PollRec :=
  { p with cancelClosed := true, doneClosed := true }

/-- Model of the pollinator state: the polls map as an association list
from name to the live poll struct, plus a ghost graveyard of every poll
that was stopped and removed, to state liveness claims over all polls
ever created. -/
structure PollinatorState where
  live : List (String × PollRec)
  graveyard : List PollRec

/-- The pollinator as NewPollinator returns it: no polls. -/
def PollinatorState.init : PollinatorState :=
  { live := [], graveyard := [] }

/-- Model of the Delete method: a no-op on an absent name, otherwise
stop the poll (close cancel, wait for done) and remove the map entry. -/
def PollinatorState.del (st : PollinatorState) (n : String) : PollinatorState :=
  match st.live.lookup n with
  | none => st
  | some p =>
      { live := st.live.filter (fun e => e.1 != n),
        graveyard := st.graveyard ++ [stopPollRec p] }

/-- Model of the Add method: when the name already exists, Delete it
first (stopping the old poll completely), then register and start the
new poll. -/
def PollinatorState.add (st : PollinatorState) (n : String) (cb : Bool) : PollinatorState :=
  let st1 := if (st.live.lookup n).isSome then st.del n else st
  { st1 with live := st1.live ++ [(n, mkPollRec n cb)] }

/-- Model of the List method: the keys of the polls map. -/
def PollinatorState.listNames (st : PollinatorState) : List String :=
  st.live.map Prod.fst

/-- Every poll this pollinator ever created. -/
def PollinatorState.allRecs (st : PollinatorState) : List PollRec :=
  st.live.map Prod.snd ++ st.graveyard

/-- The polls that are still live: created and not yet stopped. -/
def PollinatorState.liveRecs (st : PollinatorState) : List PollRec :=
  st.allRecs.filter (fun r => !r.cancelClosed)

/-- An externally driven pollinator operation. -/
inductive PollinatorOp where
  | add : String → Bool → PollinatorOp
  | del : String → PollinatorOp

/-- Apply one pollinator operation. -/
def applyPollinatorOp (st : PollinatorState) : PollinatorOp → PollinatorState
  | .add n cb => st.add n cb
  | .del n => st.del n

/-- Run a sequence of pollinator operations from the initial state. -/
def runPollinatorOps (ops : List PollinatorOp) : PollinatorState :=
  ops.foldl applyPollinatorOp PollinatorState.init

/-- Model of the Config struct the reconciliation callback receives. -/
structure Config where
  pat : String
  interval : Int
  watches : List Watch

/-- The operation sequence the reconciliation callback issues for a
given prior pollinator state and new config: one Delete for every
running poll whose name is absent from the new watch set, then one Add
with doInitialCallback set to true for every watch in the new set. -/
def configCallbackOps (st : PollinatorState) (c : Config) : List PollinatorOp :=
  ((st.listNames.filter
      (fun p => !(c.watches.any (fun w => w.name == p)))).map PollinatorOp.del)
    ++ c.watches.map (fun w => PollinatorOp.add w.name true)

/-- Model of the reconciliation callback returned by getConfigCallback:
run its operation sequence against the pollinator. -/
def configCallback (st : PollinatorState) (c : Config) : PollinatorState :=
  (configCallbackOps st c).foldl applyPollinatorOp st

/-- Model of runPoll as the sequence of times at which the poll invokes
its callback: when callbackOnStart is set the callback runs once
immediately at start, then once per tick delivered by the ticker. -/
def runPollCallbackTimes (cbOnStart : Bool) (startTime : Int) (ticks : List Int) : List Int :=
  (if cbOnStart then [startTime] else []) ++ ticks

/-- Model of the GitHubItemAction struct: a stable name and a handler;
the handler receives the cancellation state of the context it is given
(true when that context is already cancelled when the action observes
it) and returns the action error, if any. -/
structure GitHubItemAction where
  handle : Bool → GitHubItem → Option String
  name : String

/-- Model of NewSubscribeAction: skip as success when the viewer is
already subscribed, otherwise call SetSubscription (an abstract
collaborator passed as a function) and return its error unchanged. -/
def NewSubscribeAction (setSubscription : GitHubItem → Option String) : GitHubItemAction :=
  { handle := fun _ i =>
      if i.subscription == SubscriptionStateSubscribed then none
      else setSubscription i
    name := "subscribe" }

/-- Model of NewEmailAction: skip as success when the viewer is already
subscribed, otherwise build and send the mail (abstract collaborator)
and return its error, if any. -/
def NewEmailAction (send : GitHubItem → Option String) : GitHubItemAction :=
  { handle := fun _ i =>
      if i.subscription == SubscriptionStateSubscribed then none
      else send i
    name := "email" }

/-- The observable record of one action running inside a Handle call:
its name, the cancellation state of the shared errgroup context at the
moment the action observes it, and the error the action returned. -/
structure ActionRun where
  name : String
  sawCancelled : Bool
  result : Option String
deriving DecidableEq, Repr

/-- Model of the errgroup execution inside the Handle method for one
interleaving: the actions run in the given schedule order, every action
is invoked, and all of them receive the one context derived by
errgroup.WithContext, which becomes cancelled as soon as any action has
returned a non-nil error. -/
def execSchedule (i : GitHubItem) : List GitHubItemAction → Bool → List ActionRun
  | [], _ => []
  | a :: rest, cancelled =>
      let r := a.handle cancelled i
      { name := a.name, sawCancelled := cancelled, result := r }
        :: execSchedule i rest (cancelled || r.isSome)

/-- The first error among the completed action runs, in completion
order: what the Wait method of the errgroup returns. -/
def firstErr : List ActionRun → Option String
  | [] => none
  | r :: rest =>
      match r.result with
      | some e => some e
      | none => firstErr rest

/-- Model of the Handle method of the actioninator for one schedule
order of its actions: run them all against the shared errgroup context
and return the first error from Wait. -/
def actioninatorHandle (i : GitHubItem) (sched : List GitHubItemAction) : Option String :=
  firstErr (execSchedule i sched false)

/-- The labels with which the action error metric is incremented during
one Handle call: the name of every failing action, in completion
order. -/
def actionErrorMetricLabels (runs : List ActionRun) : List String :=
  (runs.filter (fun r => r.result.isSome)).map ActionRun.name

/-- The outcome of processing one repository inside one poll tick:
the repository, the ListIssues error if the fetch failed, and otherwise
the per-item result of the action handling. -/
structure RepoOutcome where
  repo : GitHubRepository
  fetchErr : Option String
  handled : List (Option String)

/-- Model of the repository loop of the poll callback returned by
getPollCallback: for each repository in order, list its issues; on a
fetch error record it (logged and counted) and continue with the next
repository; otherwise handle every returned issue, recording per-issue
action errors. -/
def pollTickLoop (listIssues : GitHubRepository → Except String (List GitHubItem))
    (handleIssue : GitHubItem → Option String) :
    List GitHubRepository → List RepoOutcome
  | [] => []
  | r :: rest =>
      match listIssues r with
      | .error e =>
          { repo := r, fetchErr := some e, handled := [] }
            :: pollTickLoop listIssues handleIssue rest
      | .ok issues =>
          { repo := r, fetchErr := none, handled := issues.map handleIssue }
            :: pollTickLoop listIssues handleIssue rest

/-- How often the poll error metric is incremented during one tick: once
per failed fetch and once per failed item handling. -/
def tickErrorCount (outs : List RepoOutcome) : Nat :=
  (outs.map (fun o =>
    (if o.fetchErr.isSome then 1 else 0) + o.handled.countP Option.isSome)).sum

/-- The invariant the pollinator maintains: the keys of the polls map
are distinct, every live map entry holds an unstopped poll registered
under its own name, and every poll in the graveyard has been stopped. -/
def PollinatorInv (st : PollinatorState) : Prop :=
  (st.live.map Prod.fst).Nodup ∧
  (∀ e ∈ st.live, e.2.name = e.1 ∧ e.2.cancelClosed = false) ∧
  (∀ r ∈ st.graveyard, r.cancelClosed = true)

/-- A concrete item: unsubscribed, with an uppercase letter in the
title. -/
def cexItem : GitHubItem :=
  { authorLogin := "octo", body := "hello world", labels := ["bug"],
    number := 1, state := "OPEN", title := "Bad title",
    subscription := "UNSUBSCRIBED", itemType := "issue",
    repo := { owner := "o", name := "r" }, id := "I1" }

/-- A concrete item whose body contains the uppercase letter B. -/
def cexItemBad : GitHubItem :=
  { cexItem with body := "Bad" }

/-- A selector that matches nothing, with source text type==pull. -/
def cexFailSelector : Selector :=
  { selMatches := fun _ => false, str := "type==pull" }

/-- A compiled body regex, pattern z, matching nothing in cexItem. -/
def cexFailBodyRegex : CompiledRegex :=
  { ast := Regex.char 'z', src := "z" }

/-- A compiled regex with the pattern a or B: it contains the uppercase
literal B, yet the branch a can match lowercased text. -/
def cexAltRegex : CompiledRegex :=
  { ast := Regex.alt (Regex.char 'a') (Regex.char 'B'), src := "a|B" }

/-- A concrete watch with one failing selector and one failing body
regex. -/
def cexWatch : Watch :=
  { name := "w1", repositories := [{ owner := "o", name := "r" }],
    selectors := [cexFailSelector], requiredLabels := [],
    searchLabels := [], bodyRegex := [cexFailBodyRegex], titleRegex := [],
    states := ["OPEN"],
    actions := { subscribe := { enabled := true },
                 email := { enabled := false, sendTo := "" } } }

/-- An action that always fails with the message boom. -/
def cexFailingAction : GitHubItemAction :=
  { handle := fun _ _ => some "boom", name := "subscribe" }

/-- An action that always succeeds. -/
def cexProbeAction : GitHubItemAction :=
  { handle := fun _ _ => none, name := "email" }

/-- The subscribe action over a SetSubscription collaborator that fails
with a message that does not mention the action name. -/
def cexSubscribeFail : GitHubItemAction :=
  NewSubscribeAction (fun _ => some "network timeout")

/-- The email action over a send collaborator that succeeds. -/
def cexEmailOk : GitHubItemAction :=
  NewEmailAction (fun _ => none)

/-- A concrete pollinator state with one live poll named a. -/
def cexPollSt : PollinatorState :=
  { live := [("a", mkPollRec "a" true)], graveyard := [] }

/-- A concrete config with two watches named a and b. -/
def cexConfig : Config :=
  { pat := "1234", interval := 60,
    watches := [{ cexWatch with name := "a" }, { cexWatch with name := "b" }] }

/-! ### Theorems -/

/-- The Matches loop is the scan for the first failing predicate. -/
theorem matchesList_eq_find (fs : List GitHubItemMatcher) (i : GitHubItem) :
    matchesList fs i =
      match fs.find? (fun f => !(f.matcher i)) with
      | none => (true, "")
      | some f => (false, "did not match " ++ f.name) := by
  induction fs with
  | nil => rfl
  | cons f fs ih =>
      by_cases h : f.matcher i
      · simp [matchesList, h, List.find?, ih]
      · simp [matchesList, h, List.find?]

/-- A reported reason string is never empty. -/
theorem did_not_match_ne_empty (s : String) : "did not match " ++ s ≠ "" := by
  intro h
  have hlen := congrArg String.length h
  simp [String.length_append] at hlen
  exact absurd hlen.1 (by decide)

/-- Claim C6: a Matchinator with an empty predicate list matches every
item with reason empty; with a non-empty list, Matches scans the
predicates in registration order and stops at the first failing one,
returning false together with a non-empty reason naming that predicate,
and returns true with an empty reason when every predicate passes. -/
theorem c6_matches_first_failing (m : Matchinator) (i : GitHubItem) :
    (m.matchFuncs = [] → m.matches i = (true, "")) ∧
    ((∀ f ∈ m.matchFuncs, f.matcher i = true) → m.matches i = (true, "")) ∧
    (m.matches i =
      match m.matchFuncs.find? (fun f => !(f.matcher i)) with
      | none => (true, "")
      | some f => (false, "did not match " ++ f.name)) ∧
    (∀ f, m.matchFuncs.find? (fun f => !(f.matcher i)) = some f →
      m.matches i = (false, "did not match " ++ f.name) ∧
        "did not match " ++ f.name ≠ "") := by
  refine ⟨?_, ?_, ?_, ?_⟩
  · intro h
    simp [Matchinator.matches, h, matchesList]
  · intro h
    rw [Matchinator.matches, matchesList_eq_find]
    have : m.matchFuncs.find? (fun f => !(f.matcher i)) = none := by
      rw [List.find?_eq_none]
      intro f hf
      simp [h f hf]
    rw [this]
  · rw [Matchinator.matches, matchesList_eq_find]
  · intro f hf
    refine ⟨?_, did_not_match_ne_empty f.name⟩
    rw [Matchinator.matches, matchesList_eq_find, hf]

/-- Claim C6 witness: the empty and the failing case at concrete
inputs. -/
theorem c6_matches_first_failing_witness :
    NewMatchinator.matches cexItem = (true, "") ∧
    (NewMatchinator.withSelectors [cexFailSelector]).matches cexItem
      = (false, "did not match selector: \x27type==pull\x27") ∧
    "did not match selector: \x27type==pull\x27" ≠ "" := by
  refine ⟨(c6_matches_first_failing NewMatchinator cexItem).1 rfl, ?_⟩
  have h2 := (c6_matches_first_failing
    (NewMatchinator.withSelectors [cexFailSelector]) cexItem).2.2.2
    (SelectorAsGitHubItemMatcher cexFailSelector) (by rfl)
  exact ⟨h2.1, h2.2⟩

/-- The body flag after any builder call sequence. -/
theorem hasBodyRegex_foldl (ops : List BuildOp) (m : Matchinator) :
    (ops.foldl applyBuildOp m).hasBodyRegex
      = (m.hasBodyRegex || ops.any BuildOp.isNonemptyBody) := by
  induction ops generalizing m with
  | nil => simp
  | cons op ops ih =>
      rw [List.foldl_cons, ih, List.any_cons]
      cases op with
      | selectors ss =>
          simp only [applyBuildOp, Matchinator.withSelectors, BuildOp.isNonemptyBody]
          split <;> simp
      | bodyRegexes rs =>
          simp only [applyBuildOp, Matchinator.withBodyRegexes, BuildOp.isNonemptyBody]
          rcases h : rs.isEmpty <;> simp [h]
      | titleRegexes rs =>
          simp only [applyBuildOp, Matchinator.withTitleRegexes, BuildOp.isNonemptyBody]
          split <;> simp
      | requiredLabels ls =>
          simp only [applyBuildOp, Matchinator.withRequiredLabels, BuildOp.isNonemptyBody]
          split <;> simp
      | matchFunc f =>
          simp [applyBuildOp, Matchinator.withMatchFunc, BuildOp.isNonemptyBody]

/-- The label flag after any builder call sequence. -/
theorem hasRequiredLabels_foldl (ops : List BuildOp) (m : Matchinator) :
    (ops.foldl applyBuildOp m).hasRequiredLabels
      = (m.hasRequiredLabels || ops.any BuildOp.isNonemptyLabels) := by
  induction ops generalizing m with
  | nil => simp
  | cons op ops ih =>
      rw [List.foldl_cons, ih, List.any_cons]
      cases op with
      | selectors ss =>
          simp only [applyBuildOp, Matchinator.withSelectors, BuildOp.isNonemptyLabels]
          split <;> simp
      | bodyRegexes rs =>
          simp only [applyBuildOp, Matchinator.withBodyRegexes, BuildOp.isNonemptyLabels]
          split <;> simp
      | titleRegexes rs =>
          simp only [applyBuildOp, Matchinator.withTitleRegexes, BuildOp.isNonemptyLabels]
          split <;> simp
      | requiredLabels ls =>
          simp only [applyBuildOp, Matchinator.withRequiredLabels, BuildOp.isNonemptyLabels]
          rcases h : ls.isEmpty <;> simp [h]
      | matchFunc f =>
          simp [applyBuildOp, Matchinator.withMatchFunc, BuildOp.isNonemptyLabels]

/-- Claim C5: HasBodyRegex is true exactly when some WithBodyRegexes
call in the construction sequence had a non-empty argument list, and
HasRequiredLabels exactly when some WithRequiredLabels call had one;
building from selectors alone leaves both flags false, and appending a
WithTitleRegexes call changes neither flag. -/
theorem c5_introspection_flags (ops : List BuildOp) :
    ((buildFrom ops).hasBodyRegex = ops.any BuildOp.isNonemptyBody) ∧
    ((buildFrom ops).hasRequiredLabels = ops.any BuildOp.isNonemptyLabels) ∧
    (∀ ss : List Selector,
      (buildFrom [BuildOp.selectors ss]).hasBodyRegex = false ∧
      (buildFrom [BuildOp.selectors ss]).hasRequiredLabels = false) ∧
    (∀ ts : List CompiledRegex,
      (buildFrom (ops ++ [BuildOp.titleRegexes ts])).hasBodyRegex
        = (buildFrom ops).hasBodyRegex ∧
      (buildFrom (ops ++ [BuildOp.titleRegexes ts])).hasRequiredLabels
        = (buildFrom ops).hasRequiredLabels) := by
  refine ⟨?_, ?_, ?_, ?_⟩
  · rw [buildFrom, hasBodyRegex_foldl]
    rfl
  · rw [buildFrom, hasRequiredLabels_foldl]
    rfl
  · intro ss
    constructor
    · rw [buildFrom, hasBodyRegex_foldl]
      simp [BuildOp.isNonemptyBody, NewMatchinator]
    · rw [buildFrom, hasRequiredLabels_foldl]
      simp [BuildOp.isNonemptyLabels, NewMatchinator]
  · intro ts
    constructor
    · rw [buildFrom, buildFrom, hasBodyRegex_foldl, hasBodyRegex_foldl]
      simp [BuildOp.isNonemptyBody]
    · rw [buildFrom, buildFrom, hasRequiredLabels_foldl, hasRequiredLabels_foldl]
      simp [BuildOp.isNonemptyLabels]

/-- The predicate list a WithBodyRegexes call produces. -/
theorem withBodyRegexes_matchFuncs (m : Matchinator) (rs : List CompiledRegex) :
    (m.withBodyRegexes rs).matchFuncs
      = m.matchFuncs ++ rs.map BodyRegexAsGitHubItemMatcher := by
  rw [Matchinator.withBodyRegexes]
  split
  · next h => simp [List.isEmpty_iff.mp h]
  · rfl

/-- The predicate list a WithTitleRegexes call produces. -/
theorem withTitleRegexes_matchFuncs (m : Matchinator) (rs : List CompiledRegex) :
    (m.withTitleRegexes rs).matchFuncs
      = m.matchFuncs ++ rs.map TitleRegexAsGitHubItemMatcher := by
  rw [Matchinator.withTitleRegexes]
  split
  · next h => simp [List.isEmpty_iff.mp h]
  · rfl

/-- The predicate list a WithSelectors call produces. -/
theorem withSelectors_matchFuncs (m : Matchinator) (ss : List Selector) :
    (m.withSelectors ss).matchFuncs
      = m.matchFuncs ++ ss.map SelectorAsGitHubItemMatcher := by
  rw [Matchinator.withSelectors]
  split
  · next h => simp [List.isEmpty_iff.mp h]
  · rfl

/-- The predicate list a WithRequiredLabels call produces. -/
theorem withRequiredLabels_matchFuncs (m : Matchinator) (ls : List String) :
    (m.withRequiredLabels ls).matchFuncs
      = m.matchFuncs ++ ls.map RequiredLabelAsGitHubItemMatcher := by
  rw [Matchinator.withRequiredLabels]
  split
  · next h => simp [List.isEmpty_iff.mp h]
  · rfl

/-- Claim C4, amended: GetMatchinator registers the predicates in the
order body regexes, then title regexes, then selectors, then required
labels, and with several failing predicate kinds the reason Matches
surfaces is the one of the first failing predicate in that order. -/
theorem c4_registration_order (w : Watch) (i : GitHubItem) :
    ((w.getMatchinator).matchFuncs
      = w.bodyRegex.map BodyRegexAsGitHubItemMatcher
          ++ w.titleRegex.map TitleRegexAsGitHubItemMatcher
          ++ w.selectors.map SelectorAsGitHubItemMatcher
          ++ w.requiredLabels.map RequiredLabelAsGitHubItemMatcher) ∧
    (w.getMatchinator.matches i =
      match (w.bodyRegex.map BodyRegexAsGitHubItemMatcher
          ++ w.titleRegex.map TitleRegexAsGitHubItemMatcher
          ++ w.selectors.map SelectorAsGitHubItemMatcher
          ++ w.requiredLabels.map RequiredLabelAsGitHubItemMatcher).find?
            (fun f => !(f.matcher i)) with
      | none => (true, "")
      | some f => (false, "did not match " ++ f.name)) := by
  have hfuncs : (w.getMatchinator).matchFuncs
      = w.bodyRegex.map BodyRegexAsGitHubItemMatcher
          ++ w.titleRegex.map TitleRegexAsGitHubItemMatcher
          ++ w.selectors.map SelectorAsGitHubItemMatcher
          ++ w.requiredLabels.map RequiredLabelAsGitHubItemMatcher := by
    rw [Watch.getMatchinator, withRequiredLabels_matchFuncs, withSelectors_matchFuncs,
      withTitleRegexes_matchFuncs, withBodyRegexes_matchFuncs]
    simp [NewMatchinator, List.append_assoc]
  refine ⟨hfuncs, ?_⟩
  rw [Matchinator.matches, matchesList_eq_find, hfuncs]

/-- Claim C4 counterexample: a watch with one failing selector and one
failing body regex. The claim says the selector predicate is registered
first, so the reason surfaced would be the selector one; the code
registers the body regex first and surfaces its reason instead. -/
theorem c4_counterexample :
    (cexWatch.getMatchinator.matchFuncs.map GitHubItemMatcher.name
      = ["bodyRegex: \x27z\x27", "selector: \x27type==pull\x27"]) ∧
    ((SelectorAsGitHubItemMatcher cexFailSelector).matcher cexItem = false) ∧
    ((BodyRegexAsGitHubItemMatcher cexFailBodyRegex).matcher cexItem = false) ∧
    (cexWatch.getMatchinator.matches cexItem
      = (false, "did not match bodyRegex: \x27z\x27")) := by
  refine ⟨rfl, rfl, ?_, ?_⟩
  · decide
  · decide

/-- A failed association-list lookup means the key is absent. -/
theorem lookup_none_notMem {β : Type} (l : List (String × β)) (n : String)
    (h : l.lookup n = none) : n ∉ l.map Prod.fst := by
  induction l with
  | nil => simp
  | cons e es ih =>
      rw [List.lookup] at h
      rcases hk : (n == e.1) with _ | _
      · rw [hk] at h
        simp only [List.map_cons, List.mem_cons]
        rintro (rfl | hmem)
        · simp at hk
        · exact ih h hmem
      · rw [hk] at h
        cases h

/-- Membership in the poll names after a Delete. -/
theorem mem_listNames_del (st : PollinatorState) (n m : String) :
    m ∈ (st.del n).listNames ↔ (m ∈ st.listNames ∧ m ≠ n) := by
  rw [PollinatorState.del]
  rcases h : st.live.lookup n with _ | p
  · have hnot := lookup_none_notMem st.live n h
    simp only [PollinatorState.listNames]
    constructor
    · intro hm
      exact ⟨hm, fun hrfl => hnot (hrfl ▸ hm)⟩
    · exact fun hm => hm.1
  · simp only [PollinatorState.listNames]
    constructor
    · intro hm
      obtain ⟨e, he, rfl⟩ := List.mem_map.mp hm
      have hef := List.mem_filter.mp he
      exact ⟨List.mem_map.mpr ⟨e, hef.1, rfl⟩, by simpa using hef.2⟩
    · rintro ⟨hm, hne⟩
      obtain ⟨e, he, rfl⟩ := List.mem_map.mp hm
      exact List.mem_map.mpr ⟨e, List.mem_filter.mpr ⟨he, by simpa using hne⟩, rfl⟩

/-- Membership in the poll names after an Add. -/
theorem mem_listNames_add (st : PollinatorState) (n : String) (cb : Bool) (m : String) :
    m ∈ (st.add n cb).listNames ↔ (m = n ∨ m ∈ st.listNames) := by
  rw [PollinatorState.add]
  by_cases h : (st.live.lookup n).isSome
  · simp only [h, if_pos, PollinatorState.listNames, List.map_append, List.mem_append]
    have hdel := mem_listNames_del st n m
    rw [PollinatorState.listNames] at hdel
    constructor
    · rintro (hm | hm)
      · exact Or.inr (hdel.mp hm).1
      · simp at hm
        exact Or.inl hm
    · rintro (rfl | hm)
      · exact Or.inr (by simp)
      · by_cases hmn : m = n
        · exact Or.inr (by simp [hmn])
        · exact Or.inl (hdel.mpr ⟨hm, hmn⟩)
  · simp only [h, if_neg, PollinatorState.listNames, List.map_append, List.mem_append]
    constructor
    · rintro (hm | hm)
      · exact Or.inr hm
      · simp at hm
        exact Or.inl hm
    · rintro (rfl | hm)
      · exact Or.inr (by simp)
      · exact Or.inl hm

/-- Membership in the poll names after the deletion phase of the
reconciliation callback. -/
theorem mem_listNames_dels (L : List String) (st : PollinatorState) (m : String) :
    m ∈ (((L.map PollinatorOp.del).foldl applyPollinatorOp st)).listNames
      ↔ (m ∈ st.listNames ∧ m ∉ L) := by
  induction L generalizing st with
  | nil => simp
  | cons x L ih =>
      rw [List.map_cons, List.foldl_cons]
      rw [ih]
      show m ∈ (st.del x).listNames ∧ m ∉ L ↔ _
      rw [mem_listNames_del]
      simp only [List.mem_cons]
      constructor
      · rintro ⟨⟨hm, hne⟩, hnL⟩
        exact ⟨hm, by rintro (rfl | hL) <;> [exact hne rfl; exact hnL hL]⟩
      · rintro ⟨hm, hn⟩
        exact ⟨⟨hm, fun hrfl => hn (Or.inl hrfl)⟩, fun hL => hn (Or.inr hL)⟩

/-- Membership in the poll names after the addition phase of the
reconciliation callback. -/
theorem mem_listNames_adds (ws : List Watch) (st : PollinatorState) (m : String) :
    m ∈ ((ws.map (fun w => PollinatorOp.add w.name true)).foldl applyPollinatorOp st).listNames
      ↔ (m ∈ ws.map Watch.name ∨ m ∈ st.listNames) := by
  induction ws generalizing st with
  | nil => simp
  | cons w ws ih =>
      rw [List.map_cons, List.foldl_cons]
      rw [ih]
      show _ ∨ m ∈ (st.add w.name true).listNames ↔ _
      rw [mem_listNames_add]
      simp only [List.map_cons, List.mem_cons]
      tauto

/-- Claim C1: after the reconciliation callback runs against any prior
pollinator state with a new config, the List method returns exactly the
set of watch names of that config. -/
theorem c1_reconcile_exact_names (st : PollinatorState) (c : Config) (n : String) :
    n ∈ (configCallback st c).listNames ↔ n ∈ c.watches.map Watch.name := by
  rw [configCallback, configCallbackOps, List.foldl_append]
  rw [mem_listNames_adds, mem_listNames_dels]
  constructor
  · rintro (hn | ⟨hmem, hnfil⟩)
    · exact hn
    · by_contra hnot
      apply hnfil
      apply List.mem_filter.mpr
      refine ⟨hmem, ?_⟩
      have hany : c.watches.any (fun w => w.name == n) = false := by
        rw [List.any_eq_false]
        intro w hw hbeq
        exact hnot (List.mem_map.mpr ⟨w, hw, by simpa using hbeq⟩)
      rw [hany]
      rfl
  · intro hn
    exact Or.inl hn

/-- Stopping one poll stops it completely in this model. -/
theorem stopPollRec_stopped (p : PollRec) :
    (stopPollRec p).cancelClosed = true ∧ (stopPollRec p).doneClosed = true := by
  exact ⟨rfl, rfl⟩

/-- The initial pollinator state satisfies the invariant. -/
theorem pollinatorInv_init : PollinatorInv PollinatorState.init := by
  refine ⟨List.nodup_nil, ?_, ?_⟩ <;> intro e he <;> cases he

/-- Delete preserves the pollinator invariant. -/
theorem pollinatorInv_del (st : PollinatorState) (n : String)
    (h : PollinatorInv st) : PollinatorInv (st.del n) := by
  obtain ⟨hnd, hlive, hgrave⟩ := h
  rw [PollinatorState.del]
  rcases hl : st.live.lookup n with _ | p
  · exact ⟨hnd, hlive, hgrave⟩
  · refine ⟨?_, ?_, ?_⟩
    · exact List.Nodup.sublist (List.Sublist.map Prod.fst (List.filter_sublist st.live)) hnd
    · intro e he
      exact hlive e (List.mem_filter.mp he).1
    · intro r hr
      rcases List.mem_append.mp hr with hr | hr
      · exact hgrave r hr
      · simp only [List.mem_singleton] at hr
        rw [hr]
        rfl

/-- The key a Delete removes is absent afterwards. -/
theorem del_removes_key (st : PollinatorState) (n : String) :
    (st.live.lookup n).isSome → n ∉ (st.del n).listNames := by
  intro _
  rw [mem_listNames_del]
  rintro ⟨_, hne⟩
  exact hne rfl

/-- Add preserves the pollinator invariant. -/
theorem pollinatorInv_add (st : PollinatorState) (n : String) (cb : Bool)
    (h : PollinatorInv st) : PollinatorInv (st.add n cb) := by
  have hmain : ∀ st1 : PollinatorState, PollinatorInv st1 → n ∉ st1.listNames →
      PollinatorInv { st1 with live := st1.live ++ [(n, mkPollRec n cb)] } := by
    intro st1 ⟨hnd, hlive, hgrave⟩ hnot
    refine ⟨?_, ?_, hgrave⟩
    · rw [List.map_append]
      apply List.Nodup.append hnd (by simp)
      intro x hx hx2
      simp only [List.map_cons, List.map_nil, List.mem_singleton] at hx2
      exact hnot (hx2 ▸ hx)
    · intro e he
      rcases List.mem_append.mp he with he | he
      · exact hlive e he
      · simp only [List.mem_singleton] at he
        rw [he]
        exact ⟨rfl, rfl⟩
  rw [PollinatorState.add]
  by_cases hl : (st.live.lookup n).isSome
  · simp only [hl, if_pos]
    exact hmain (st.del n) (pollinatorInv_del st n h) (del_removes_key st n hl)
  · simp only [hl, if_neg]
    refine hmain st h ?_
    intro hmem
    rcases ho : st.live.lookup n with _ | p
    · exact lookup_none_notMem st.live n ho hmem
    · exact hl (ho ▸ rfl)

/-- Every state reached by a sequence of pollinator operations
satisfies the invariant. -/
theorem pollinatorInv_foldl (ops : List PollinatorOp) (st : PollinatorState)
    (h : PollinatorInv st) : PollinatorInv (ops.foldl applyPollinatorOp st) := by
  induction ops generalizing st with
  | nil => exact h
  | cons op ops ih =>
      rw [List.foldl_cons]
      cases op with
      | add n cb => exact ih _ (pollinatorInv_add st n cb h)
      | del n => exact ih _ (pollinatorInv_del st n h)

/-- Under the invariant, the live polls named n are counted by the
occurrences of n among the map keys. -/
theorem liveRecs_count_of_inv (st : PollinatorState) (h : PollinatorInv st) (n : String) :
    st.liveRecs.countP (fun r => r.name == n) ≤ 1 := by
  obtain ⟨hnd, hlive, hgrave⟩ := h
  rw [PollinatorState.liveRecs, PollinatorState.allRecs, List.filter_append]
  have hg : st.graveyard.filter (fun r => !r.cancelClosed) = [] := by
    rw [List.filter_eq_nil_iff]
    intro r hr
    simp [hgrave r hr]
  have hl : (st.live.map Prod.snd).filter (fun r => !r.cancelClosed)
      = st.live.map Prod.snd := by
    rw [List.filter_eq_self]
    intro r hr
    obtain ⟨e, he, rfl⟩ := List.mem_map.mp hr
    simp [(hlive e he).2]
  rw [hg, hl, List.append_nil, List.countP_map]
  have hcongr : st.live.countP ((fun r => r.name == n) ∘ Prod.snd)
      = st.live.countP (fun e => e.1 == n) := by
    apply List.countP_congr
    intro e he
    simp only [Function.comp_apply, (hlive e he).1]
  rw [hcongr]
  have hkey := List.nodup_iff_count_le_one.mp hnd n
  rw [List.count_eq_countP, List.countP_map] at hkey
  have hsame : st.live.countP (fun e => e.1 == n)
      = st.live.countP ((fun x => x == n) ∘ Prod.fst) := by
    apply List.countP_congr
    intro e _
    simp [Function.comp]
  rw [hsame]
  exact hkey

/-- Claim C7: the pollinator keeps at most one live poll per name in
every reachable state, and Add on an existing name fully stops the old
poll, cancel channel closed and done channel acknowledged, before the
new poll for that name is registered and started. -/
theorem c7_one_live_poll_per_name :
    (∀ (ops : List PollinatorOp) (n : String),
      (runPollinatorOps ops).liveRecs.countP (fun r => r.name == n) ≤ 1) ∧
    (∀ (st : PollinatorState) (n : String) (cb : Bool) (p : PollRec),
      st.live.lookup n = some p →
        stopPollRec p ∈ (st.add n cb).graveyard ∧
        (stopPollRec p).cancelClosed = true ∧
        (stopPollRec p).doneClosed = true ∧
        (n, mkPollRec n cb) ∈ (st.add n cb).live ∧
        (mkPollRec n cb).cancelClosed = false) := by
  constructor
  · intro ops n
    exact liveRecs_count_of_inv _ (pollinatorInv_foldl ops _ pollinatorInv_init) n
  · intro st n cb p hp
    have hsome : (st.live.lookup n).isSome = true := by
      rw [hp]
      rfl
    rw [PollinatorState.add]
    simp only [hsome, if_pos]
    rw [PollinatorState.del, hp]
    refine ⟨by simp, rfl, rfl, by simp, rfl⟩

/-- Claim C7 witness: replacing the single live poll of a concrete
state. -/
theorem c7_one_live_poll_per_name_witness :
    ((runPollinatorOps [PollinatorOp.add "a" true, PollinatorOp.add "a" false]).liveRecs.countP
        (fun r => r.name == "a") ≤ 1) ∧
    (stopPollRec (mkPollRec "a" true) ∈ (cexPollSt.add "a" false).graveyard ∧
      (stopPollRec (mkPollRec "a" true)).cancelClosed = true ∧
      (stopPollRec (mkPollRec "a" true)).doneClosed = true ∧
      ("a", mkPollRec "a" false) ∈ (cexPollSt.add "a" false).live ∧
      (mkPollRec "a" false).cancelClosed = false) :=
  ⟨c7_one_live_poll_per_name.1 [PollinatorOp.add "a" true, PollinatorOp.add "a" false] "a",
   c7_one_live_poll_per_name.2 cexPollSt "a" false (mkPollRec "a" true) rfl⟩

/-- Claim C8: the reconciliation callback issues all deletions before
any addition, every addition it issues carries doInitialCallback set to
true and covers every watch of the new config, and a poll started with
doInitialCallback true invokes its callback immediately at start, before
the first interval tick. -/
theorem c8_deletes_then_adds_immediate (st : PollinatorState) (c : Config) :
    (∃ dels adds, configCallbackOps st c = dels ++ adds ∧
      (∀ o ∈ dels, ∃ n, o = PollinatorOp.del n ∧ n ∈ st.listNames ∧
        n ∉ c.watches.map Watch.name) ∧
      (∀ o ∈ adds, ∃ w, w ∈ c.watches ∧ o = PollinatorOp.add w.name true)) ∧
    (∀ w ∈ c.watches, PollinatorOp.add w.name true ∈ configCallbackOps st c) ∧
    (∀ n b, PollinatorOp.add n b ∈ configCallbackOps st c → b = true) ∧
    (∀ (t : Int) (ticks : List Int), runPollCallbackTimes true t ticks = t :: ticks) := by
  refine ⟨?_, ?_, ?_, ?_⟩
  · refine ⟨_, _, rfl, ?_, ?_⟩
    · intro o ho
      obtain ⟨x, hx, rfl⟩ := List.mem_map.mp ho
      obtain ⟨hxmem, hxabs⟩ := List.mem_filter.mp hx
      refine ⟨x, rfl, hxmem, ?_⟩
      intro hxin
      obtain ⟨w, hw, rfl⟩ := List.mem_map.mp hxin
      have hb : (c.watches.any (fun v => v.name == w.name)) = true :=
        List.any_eq_true.mpr ⟨w, hw, by simp⟩
      rw [hb] at hxabs
      cases hxabs
    · intro o ho
      obtain ⟨w, hw, rfl⟩ := List.mem_map.mp ho
      exact ⟨w, hw, rfl⟩
  · intro w hw
    rw [configCallbackOps]
    exact List.mem_append.mpr (Or.inr (List.mem_map.mpr ⟨w, hw, rfl⟩))
  · intro n b hmem
    rcases List.mem_append.mp hmem with hmem | hmem
    · obtain ⟨x, _, hx⟩ := List.mem_map.mp hmem
      cases hx
    · obtain ⟨w, _, hx⟩ := List.mem_map.mp hmem
      cases hx
      rfl
  · intro t ticks
    rfl

/-- Claim C8 witness: the concrete reconciliation of cexPollSt with
cexConfig. -/
theorem c8_deletes_then_adds_immediate_witness :
    PollinatorOp.add "a" true ∈ configCallbackOps cexPollSt cexConfig ∧
    (PollinatorOp.add "x" false ∈ configCallbackOps cexPollSt cexConfig → False) ∧
    runPollCallbackTimes true 17 [42, 43] = [17, 42, 43] := by
  refine ⟨?_, ?_, ?_⟩
  · exact (c8_deletes_then_adds_immediate cexPollSt cexConfig).2.1
      { cexWatch with name := "a" } (by simp [cexConfig])
  · intro hmem
    have := (c8_deletes_then_adds_immediate cexPollSt cexConfig).2.2.1 "x" false hmem
    cases this
  · exact (c8_deletes_then_adds_immediate cexPollSt cexConfig).2.2.2 17 [42, 43]

/-- Claim C2 counterexample: with the failing action scheduled first,
the sibling action observes the shared errgroup context already
cancelled; without a prior failure the same action observes it open.
The claim says the context given to each action is never cancelled by a
sibling failure. -/
theorem c2_counterexample :
    ((execSchedule cexItem [cexFailingAction, cexProbeAction] false).map
        (fun r => (r.name, r.sawCancelled))
      = [("subscribe", false), ("email", true)]) ∧
    ((execSchedule cexItem [cexProbeAction, cexFailingAction] false).map
        (fun r => (r.name, r.sawCancelled))
      = [("email", false), ("subscribe", false)]) := by
  exact ⟨rfl, rfl⟩

/-- Every scheduled action runs exactly once, whatever the outcomes. -/
theorem execSchedule_names (i : GitHubItem) (sched : List GitHubItemAction) (c0 : Bool) :
    (execSchedule i sched c0).map ActionRun.name = sched.map GitHubItemAction.name := by
  induction sched generalizing c0 with
  | nil => rfl
  | cons a rest ih =>
      simp only [execSchedule, List.map_cons, List.cons.injEq]
      exact ⟨trivial, ih _⟩

/-- Claim C2, amended: inside one Handle call every action receives the
one context derived by errgroup.WithContext, and that shared context is
cancelled exactly when the parent was cancelled or some action that
completed earlier returned an error; a sibling failure therefore can
cancel the context the remaining actions observe, but every scheduled
action still runs. -/
theorem c2_shared_errgroup_context (i : GitHubItem)
    (sched : List GitHubItemAction) (c0 : Bool) :
    ((execSchedule i sched c0).map ActionRun.name
      = sched.map GitHubItemAction.name) ∧
    (∀ j (hj : j < (execSchedule i sched c0).length),
      ((execSchedule i sched c0).get ⟨j, hj⟩).sawCancelled
        = (c0 || ((execSchedule i sched c0).take j).any
            (fun r => r.result.isSome))) := by
  refine ⟨execSchedule_names i sched c0, ?_⟩
  induction sched generalizing c0 with
  | nil =>
      intro j hj
      simp [execSchedule] at hj
  | cons a rest ih =>
      intro j hj
      cases j with
      | zero => simp [execSchedule]
      | succ j =>
          have hj2 : j < (execSchedule i rest (c0 || (a.handle c0 i).isSome)).length := by
            simpa [execSchedule] using hj
          have hih := ih (c0 || (a.handle c0 i).isSome) j hj2
          have hget : ((execSchedule i (a :: rest) c0).get ⟨j + 1, hj⟩)
              = ((execSchedule i rest (c0 || (a.handle c0 i).isSome)).get ⟨j, hj2⟩) := rfl
          have hexp : execSchedule i (a :: rest) c0
              = { name := a.name, sawCancelled := c0, result := a.handle c0 i }
                  :: execSchedule i rest (c0 || (a.handle c0 i).isSome) := rfl
          rw [hget, hih, hexp]
          simp [List.take_succ_cons, List.any_cons, Bool.or_assoc]

/-- Claim C2 amended witness: the shared context semantics at a
concrete two-action schedule. -/
theorem c2_shared_errgroup_context_witness :
    ((execSchedule cexItem [cexFailingAction, cexProbeAction] false).map ActionRun.name
      = ["subscribe", "email"]) ∧
    ((execSchedule cexItem [cexFailingAction, cexProbeAction] false).get
        ⟨1, by decide⟩).sawCancelled
      = (false || ((execSchedule cexItem [cexFailingAction, cexProbeAction] false).take 1).any
          (fun r => r.result.isSome)) :=
  ⟨(c2_shared_errgroup_context cexItem [cexFailingAction, cexProbeAction] false).1,
   (c2_shared_errgroup_context cexItem [cexFailingAction, cexProbeAction] false).2 1 (by decide)⟩

/-- Claim C3 counterexample: a dispatch over the subscribe action whose
SetSubscription collaborator fails with the message network timeout and
a succeeding email action. Handle returns that error unchanged; the
returned error does not name the failing action. -/
theorem c3_counterexample :
    (actioninatorHandle cexItem [cexSubscribeFail, cexEmailOk] = some "network timeout") ∧
    ("subscribe".data <:+: "network timeout".data → False) ∧
    ((execSchedule cexItem [cexSubscribeFail, cexEmailOk] false).map
        (fun r => (r.name, r.result))
      = [("subscribe", some "network timeout"), ("email", none)]) := by
  refine ⟨rfl, ?_, rfl⟩
  decide

/-- Wait returns the first error of the completed runs. -/
theorem firstErr_eq_find (runs : List ActionRun) :
    firstErr runs = (runs.find? (fun r => r.result.isSome)).bind ActionRun.result := by
  induction runs with
  | nil => rfl
  | cons r rest ih =>
      rcases hr : r.result with _ | e
      · rw [firstErr, hr, ih, List.find?]
        simp [hr]
      · rw [firstErr, hr, List.find?]
        simp [hr]

/-- Claim C3, amended: when at least one action fails, Handle returns a
non-nil error, namely the first action error in completion order,
unchanged, so the error does not in general name the failing action;
the action error metric is incremented under the name of every failing
action, and every action of the dispatch still runs. -/
theorem c3_first_error_unnamed (i : GitHubItem) (sched : List GitHubItemAction) :
    (actioninatorHandle i sched
      = ((execSchedule i sched false).find? (fun r => r.result.isSome)).bind
          ActionRun.result) ∧
    ((actioninatorHandle i sched).isSome = true ↔
      ∃ r ∈ execSchedule i sched false, r.result.isSome = true) ∧
    (∀ r ∈ execSchedule i sched false, r.result.isSome = true →
      r.name ∈ actionErrorMetricLabels (execSchedule i sched false)) ∧
    ((execSchedule i sched false).map ActionRun.name
      = sched.map GitHubItemAction.name) := by
  refine ⟨firstErr_eq_find _, ?_, ?_, ?_⟩
  · rw [actioninatorHandle, firstErr_eq_find]
    constructor
    · intro h
      rcases hf : (execSchedule i sched false).find? (fun r => r.result.isSome) with _ | r
      · rw [hf] at h
        simp at h
      · have hps := List.find?_some hf
        exact ⟨r, List.mem_of_find?_eq_some hf, hps⟩
    · rintro ⟨r, hr, hsome⟩
      rcases hf : (execSchedule i sched false).find? (fun r => r.result.isSome) with _ | r2
      · have hnone := List.find?_eq_none.mp hf r hr
        rw [hsome] at hnone
        cases hnone rfl
      · have h2 := List.find?_some hf
        rw [hf]
        rcases ho : r2.result with _ | e
        · rw [ho] at h2
          cases h2
        · simp [Option.bind, ho]
  · intro r hr hsome
    rw [actionErrorMetricLabels]
    exact List.mem_map.mpr ⟨r, List.mem_filter.mpr ⟨hr, hsome⟩, rfl⟩
  · exact execSchedule_names i sched false

/-- Claim C3 amended witness: the amended statement applied at the
concrete failing dispatch. -/
theorem c3_first_error_unnamed_witness :
    (actioninatorHandle cexItem [cexSubscribeFail, cexEmailOk]).isSome = true ∧
    "subscribe" ∈ actionErrorMetricLabels
      (execSchedule cexItem [cexSubscribeFail, cexEmailOk] false) := by
  constructor
  · exact (c3_first_error_unnamed cexItem [cexSubscribeFail, cexEmailOk]).2.1.mpr
      ⟨⟨"subscribe", false, some "network timeout"⟩, by decide, by decide⟩
  · exact (c3_first_error_unnamed cexItem [cexSubscribeFail, cexEmailOk]).2.2.1
      ⟨"subscribe", false, some "network timeout"⟩ (by decide) (by decide)

/-- Claim C9: the poll callback processes every repository of the watch
in order, and a ListIssues failure for one repository is recorded,
increments the poll error count by exactly one, and leaves the
processing of the remaining repositories unchanged. -/
theorem c9_fetch_error_continues
    (listIssues : GitHubRepository → Except String (List GitHubItem))
    (handleIssue : GitHubItem → Option String)
    (repos : List GitHubRepository) (r : GitHubRepository)
    (rest : List GitHubRepository) (e : String) :
    ((pollTickLoop listIssues handleIssue repos).map RepoOutcome.repo = repos) ∧
    (listIssues r = .error e →
      pollTickLoop listIssues handleIssue (r :: rest)
        = { repo := r, fetchErr := some e, handled := [] }
            :: pollTickLoop listIssues handleIssue rest ∧
      tickErrorCount (pollTickLoop listIssues handleIssue (r :: rest))
        = 1 + tickErrorCount (pollTickLoop listIssues handleIssue rest)) := by
  constructor
  · induction repos with
    | nil => rfl
    | cons x rest2 ih =>
        rw [pollTickLoop]
        rcases hx : listIssues x with ex | issues
        · simp only [List.map_cons, List.cons.injEq]
          exact ⟨trivial, ih⟩
        · simp only [List.map_cons, List.cons.injEq]
          exact ⟨trivial, ih⟩
  · intro herr
    have hstep : pollTickLoop listIssues handleIssue (r :: rest)
        = { repo := r, fetchErr := some e, handled := [] }
            :: pollTickLoop listIssues handleIssue rest := by
      rw [pollTickLoop, herr]
    refine ⟨hstep, ?_⟩
    rw [hstep, tickErrorCount, tickErrorCount, List.map_cons, List.sum_cons]
    simp

/-- Claim C9 witness: one failing and one succeeding repository. -/
theorem c9_fetch_error_continues_witness :
    ((pollTickLoop
        (fun rp => if rp.name == "down" then Except.error "fetch failed"
          else Except.ok [cexItem])
        (fun _ => none)
        [{ owner := "o", name := "down" }, { owner := "o", name := "r" }]).map
          RepoOutcome.repo
      = [{ owner := "o", name := "down" }, { owner := "o", name := "r" }]) ∧
    (pollTickLoop
        (fun rp => if rp.name == "down" then Except.error "fetch failed"
          else Except.ok [cexItem])
        (fun _ => none)
        [{ owner := "o", name := "down" }, { owner := "o", name := "r" }]
      = { repo := { owner := "o", name := "down" }, fetchErr := some "fetch failed",
          handled := [] }
          :: pollTickLoop
            (fun rp => if rp.name == "down" then Except.error "fetch failed"
              else Except.ok [cexItem])
            (fun _ => none) [{ owner := "o", name := "r" }]) ∧
    (tickErrorCount (pollTickLoop
        (fun rp => if rp.name == "down" then Except.error "fetch failed"
          else Except.ok [cexItem])
        (fun _ => none)
        [{ owner := "o", name := "down" }, { owner := "o", name := "r" }])
      = 1 + tickErrorCount (pollTickLoop
          (fun rp => if rp.name == "down" then Except.error "fetch failed"
            else Except.ok [cexItem])
          (fun _ => none) [{ owner := "o", name := "r" }])) := by
  refine ⟨(c9_fetch_error_continues _ _ _
    { owner := "o", name := "down" } [{ owner := "o", name := "r" }] "fetch failed").1, ?_⟩
  exact (c9_fetch_error_continues _ (fun _ => none)
    [{ owner := "o", name := "down" }, { owner := "o", name := "r" }]
    { owner := "o", name := "down" } [{ owner := "o", name := "r" }] "fetch failed").2 rfl

/-- Start-anchored matching distributes over alternation. -/
theorem matchSomePre_alt (r s : Regex) (u : List Char) :
    (Regex.alt r s).matchSomePre u = (r.matchSomePre u || s.matchSomePre u) := by
  induction u generalizing r s with
  | nil => simp [Regex.matchSomePre, Regex.nullable]
  | cons a as ih =>
      simp only [Regex.matchSomePre, Regex.nullable, Regex.deriv, ih]
      simp [Bool.or_assoc, Bool.or_left_comm]

/-- A concatenation headed by the empty language matches nothing. -/
theorem matchSomePre_cat_emptyset (r : Regex) (u : List Char) :
    (Regex.cat Regex.emptyset r).matchSomePre u = false := by
  induction u with
  | nil => simp [Regex.matchSomePre, Regex.nullable]
  | cons a as ih => simp [Regex.matchSomePre, Regex.nullable, Regex.deriv, ih]

/-- A concatenation headed by the empty word matches like its tail. -/
theorem matchSomePre_cat_eps (r : Regex) (u : List Char) :
    (Regex.cat Regex.eps r).matchSomePre u = r.matchSomePre u := by
  cases u with
  | nil => simp [Regex.matchSomePre, Regex.nullable]
  | cons a as =>
      simp [Regex.matchSomePre, Regex.nullable, Regex.deriv,
        matchSomePre_alt, matchSomePre_cat_emptyset]

/-- A literal pattern matches at the start exactly when it is a leading
segment of the text. -/
theorem matchSomePre_lit (s u : List Char) :
    (litRegex s).matchSomePre u = decide (s <+: u) := by
  induction s generalizing u with
  | nil =>
      cases u with
      | nil => simp [litRegex, Regex.matchSomePre, Regex.nullable]
      | cons a as =>
          simp [litRegex, Regex.matchSomePre, Regex.nullable, List.nil_prefix]
  | cons x xs ih =>
      cases u with
      | nil => simp [litRegex, Regex.matchSomePre, Regex.nullable]
      | cons a as =>
          show (Regex.cat (Regex.char x) (litRegex xs)).matchSomePre (a :: as) = _
          rw [Regex.matchSomePre]
          by_cases hax : a = x
          · subst hax
            have hd : (Regex.cat (Regex.char a) (litRegex xs)).deriv a
                = Regex.cat Regex.eps (litRegex xs) := by
              simp [Regex.deriv, Regex.nullable]
            rw [hd, matchSomePre_cat_eps, ih]
            simp [Regex.nullable, List.cons_prefix_cons]
          · have hd : (Regex.cat (Regex.char x) (litRegex xs)).deriv a
                = Regex.cat Regex.emptyset (litRegex xs) := by
              simp [Regex.deriv, Regex.nullable, hax]
            rw [hd, matchSomePre_cat_emptyset]
            simp [Regex.nullable, List.cons_prefix_cons, hax]
            exact fun hxa _ => hax hxa.symm

/-- Unanchored matching succeeds exactly when the regex matches at the
start of some trailing segment of the text. -/
theorem matchIn_iff (r : Regex) (t : List Char) :
    r.matchIn t = true ↔ ∃ u, u <:+ t ∧ r.matchSomePre u = true := by
  induction t with
  | nil =>
      constructor
      · intro h
        exact ⟨[], List.suffix_refl [], h⟩
      · rintro ⟨u, hu, hm⟩
        rw [ List.suffix_nil.mp hu] at hm
        exact hm
  | cons a as ih =>
      rw [Regex.matchIn, Bool.or_eq_true, ih]
      constructor
      · rintro (h | ⟨u, hu, hm⟩)
        · exact ⟨a :: as, List.suffix_refl _, h⟩
        · exact ⟨u, hu.trans (List.suffix_cons a as), hm⟩
      · rintro ⟨u, hu, hm⟩
        rcases List.suffix_cons_iff.mp hu with rfl | hu2
        · exact Or.inl hm
        · exact Or.inr ⟨u, hu2, hm⟩

/-- A literal pattern matches unanchored exactly when it occurs as a
contiguous segment of the text. -/
theorem matchIn_lit (s t : List Char) :
    (litRegex s).matchIn t = decide (s <:+: t) := by
  by_cases h : s <:+: t
  · obtain ⟨u, hpre, hsuf⟩ := List.infix_iff_prefix_suffix.mp h
    have : (litRegex s).matchIn t = true := by
      rw [matchIn_iff]
      exact ⟨u, hsuf, by rw [matchSomePre_lit]; exact decide_eq_true hpre⟩
    rw [this, decide_eq_true h]
  · have : ¬ (litRegex s).matchIn t = true := by
      rw [matchIn_iff]
      rintro ⟨u, hsuf, hm⟩
      rw [matchSomePre_lit] at hm
      exact h ( List.infix_iff_prefix_suffix.mpr ⟨u, of_decide_eq_true hm, hsuf⟩)
    rw [Bool.not_eq_true] at this
    rw [this, decide_eq_false h]

/-- Lowercasing never yields an uppercase ASCII character. -/
theorem lowerChar_not_upper (c : Char) : isUpperAscii (lowerChar c) = false := by
  rw [lowerChar]
  split
  · next h =>
      have he : (Char.toNat ⟨UInt32.ofNat (c.toNat + 32), by
          show Nat.isValidChar ((UInt32.ofNat (c.toNat + 32)).toNat)
          have heq : (UInt32.ofNat (c.toNat + 32)).toNat = (c.toNat + 32) % 4294967296 := rfl
          rw [heq, Nat.mod_eq_of_lt (by omega)]
          exact Or.inl (by omega)⟩)
          = (c.toNat + 32) % 4294967296 := rfl
      rw [isUpperAscii, he, Nat.mod_eq_of_lt (by omega)]
      simp only [Bool.and_eq_false_iff, decide_eq_false_iff_not]
      right
      omega
  · next h =>
      rw [isUpperAscii]
      simp only [Bool.and_eq_false_iff, decide_eq_false_iff_not]
      omega

/-- Every character of a lowercased string is non-uppercase. -/
theorem mem_goToLower_not_upper (s : String) (c : Char)
    (hc : c ∈ (goToLower s).data) : isUpperAscii c = false := by
  have hc2 : c ∈ s.data.map lowerChar := hc
  obtain ⟨d, _, rfl⟩ := List.mem_map.mp hc2
  exact lowerChar_not_upper d

/-- Claim C10, amended: the body and title predicates apply the regex to
the lowercased item text, so a literal pattern containing an uppercase
ASCII character never matches any item; but a pattern that merely
contains an uppercase literal inside an alternative that need not be
used, such as a or B, can still match, so the uppercase literal must be
required by every way of matching for the never-matches consequence to
hold. -/
theorem c10_lowercased_matching (r : CompiledRegex) (i : GitHubItem)
    (s : List Char) (c : Char) :
    ((BodyRegexAsGitHubItemMatcher r).matcher i
      = r.ast.matchIn (goToLower i.body).data) ∧
    ((TitleRegexAsGitHubItemMatcher r).matcher i
      = r.ast.matchIn (goToLower i.title).data) ∧
    (c ∈ s → isUpperAscii c = true →
      (BodyRegexAsGitHubItemMatcher { ast := litRegex s, src := r.src }).matcher i
        = false ∧
      (TitleRegexAsGitHubItemMatcher { ast := litRegex s, src := r.src }).matcher i
        = false) := by
  refine ⟨rfl, rfl, ?_⟩
  intro hmem hupper
  have hnever : ∀ txt : String, (litRegex s).matchIn (goToLower txt).data = false := by
    intro txt
    rw [matchIn_lit]
    rcases hinf : decide (s <:+: (goToLower txt).data) with _ | _
    · rfl
    · have hsub := List.IsInfix.subset (of_decide_eq_true hinf)
      have := mem_goToLower_not_upper txt c (hsub hmem)
      rw [hupper] at this
      cases this
  exact ⟨hnever i.body, hnever i.title⟩

/-- Claim C10 amended witness: the literal pattern B never matches the
item whose body is the word Bad, although that body contains B. -/
theorem c10_lowercased_matching_witness :
    'B' ∈ ['B'] ∧ isUpperAscii 'B' = true ∧
    (BodyRegexAsGitHubItemMatcher { ast := litRegex ['B'], src := "B" }).matcher cexItemBad
      = false ∧
    (TitleRegexAsGitHubItemMatcher { ast := litRegex ['B'], src := "B" }).matcher cexItemBad
      = false := by
  have h := (c10_lowercased_matching { ast := litRegex ['B'], src := "B" } cexItemBad
    ['B'] 'B').2.2 (by decide) (by decide)
  exact ⟨by decide, by decide, h.1, h.2⟩

/-- Claim C10 counterexample: the pattern a or B contains the uppercase
literal B, and the item body Bad contains that exact uppercase text,
yet the body predicate matches the item, because the lowercased body
bad still matches through the alternative a. -/
theorem c10_counterexample :
    Regex.hasUpperLit cexAltRegex.ast = true ∧
    cexItemBad.body.data.contains 'B' = true ∧
    (BodyRegexAsGitHubItemMatcher cexAltRegex).matcher cexItemBad = true := by
  refine ⟨rfl, rfl, ?_⟩
  decide

end Watchinator
